import Mathlib

/- Shallow embedding of the genetic-algorithm fuel-blending program in src/App.py.
   Real numbers are modelled by the rationals; each NumPy float array of length 4
   is modelled by a function from Fin 4. Every random draw the source takes from
   NumPy is passed explicitly as an argument of the embedded operation. -/

abbrev Vec4 := Fin 4 → ℚ

/-- Literal 4-vector, standing for a NumPy array of length 4. -/
def mkV (a b c d : ℚ) : Vec4 := ![a, b, c, d]

/-- Sum of the 4 entries, standing for ndarray.sum(). -/
def sumV (v : Vec4) : ℚ := v 0 + v 1 + v 2 + v 3

/-- Dot product of two 4-vectors, standing for np.dot. -/
def dotV (v w : Vec4) : ℚ := v 0 * w 0 + v 1 * w 1 + v 2 * w 2 + v 3 * w 3

/-- Default vector used when indexing lists totally. -/
def vzero : Vec4 := mkV 0 0 0 0

/-- Componentwise division by the sum, standing for `v / v.sum()`.
    Rational division by zero gives 0 in Lean; the NaN this produces in NumPy is
    modelled separately for the degenerate-renormalization analysis below. -/
def renorm (v : Vec4) : Vec4 := fun i => v i / sumV v

/-- Componentwise selection, standing for np.where(mascara, pai1, pai2). -/
def npWhere (mask : Fin 4 → Bool) (p1 p2 : Vec4) : Vec4 :=
  fun i => if mask i then p1 i else p2 i

/-- Componentwise absolute value, standing for np.abs. -/
def absV (v : Vec4) : Vec4 := fun i => |v i|

/-- Data table of the 4 fuel components (class ComponenteDados). -/
structure ComponenteDados where
  custos : Vec4
  octanagem : Vec4
  pressao_vapor : Vec4
  teor_benzeno : Vec4
  teor_enxofre : Vec4

/-- The fixed component table constructed in ComponenteDados.__init__. -/
def componentes : ComponenteDados :=
  ⟨mkV 2.50 3.00 1.80 2.80,
   mkV 95 88 85 92,
   mkV 65 55 58 64,
   mkV 2.5 1.5 1.2 2.0,
   mkV 60 40 35 55⟩

/-- Blend specification thresholds (class Especificacoes). -/
structure Especificacoes where
  octanagem_min : ℚ
  pressao_vapor_max : ℚ
  benzeno_max : ℚ
  enxofre_max : ℚ

/-- The fixed specification constructed in Especificacoes.__init__. -/
def specs : Especificacoes := ⟨91, 62, 2.0, 50⟩

/-- Hyperparameters of AlgoritmoGenetico carried by self. -/
structure GA where
  tamanho_pop : ℕ
  taxa_crossover : ℚ
  taxa_mutacao : ℚ
  geracoes : ℕ
  torneio_k : ℕ

/-- AlgoritmoGenetico.calcular_propriedades: the four blended properties
    (octane, vapor pressure, benzene, sulfur) as dot products. -/
def calcular_propriedades (individuo : Vec4) : ℚ × ℚ × ℚ × ℚ :=
  (dotV individuo componentes.octanagem,
   dotV individuo componentes.pressao_vapor,
   dotV individuo componentes.teor_benzeno,
   dotV individuo componentes.teor_enxofre)

/-- AlgoritmoGenetico.calcular_custo. -/
def calcular_custo (individuo : Vec4) : ℚ :=
  dotV individuo componentes.custos

/-- AlgoritmoGenetico.calcular_penalidades: accumulates the four weighted
    constraint-violation terms guarded by the four if statements. -/
def calcular_penalidades (individuo : Vec4) : ℚ :=
  let p := calcular_propriedades individuo
  (if p.1 < specs.octanagem_min then 100 * (specs.octanagem_min - p.1) else 0) +
  (if p.2.1 > specs.pressao_vapor_max then 50 * (p.2.1 - specs.pressao_vapor_max) else 0) +
  (if p.2.2.1 > specs.benzeno_max then 200 * (p.2.2.1 - specs.benzeno_max) else 0) +
  (if p.2.2.2 > specs.enxofre_max then 150 * (p.2.2.2 - specs.enxofre_max) else 0)

/-- AlgoritmoGenetico.fitness: blend cost plus penalties. -/
def fitness (individuo : Vec4) : ℚ :=
  calcular_custo individuo + calcular_penalidades individuo

/-- AlgoritmoGenetico.criar_individuo: 4 uniform draws in [0,1) normalized by
    their sum. The draws are the explicit argument. -/
def criar_individuo (proporcoes : Vec4) : Vec4 :=
  renorm proporcoes

/-- AlgoritmoGenetico.criar_populacao: tamanho_pop independent individuals;
    init gives the 4 uniform draws of each one. -/
def criar_populacao (ga : GA) (init : ℕ → Vec4) : List Vec4 :=
  (List.range ga.tamanho_pop).map (fun i => criar_individuo (init i))

/-- First index of the minimum of a rational list, standing for np.argmin
    (first occurrence on ties, 0 on the empty list where NumPy raises). -/
def argminList : List ℚ → ℕ
  | [] => 0
  | [_] => 0
  | x :: y :: ys =>
    let j := argminList (y :: ys)
    if x ≤ (y :: ys).getD j 0 then 0 else j + 1

/-- AlgoritmoGenetico.selecao_torneio: idxs is the np.random.choice draw of
    torneio_k indices (with replacement); the individual of lowest fitness
    among the drawn indices is returned (populacao[melhor_idx].copy()). -/
def selecao_torneio (populacao : List Vec4) (fitness_values : List ℚ)
    (idxs : List ℕ) : Vec4 :=
  let t := argminList (idxs.map (fun i => fitness_values.getD i 0))
  let melhor_idx := idxs.getD t 0
  populacao.getD melhor_idx vzero

/-- AlgoritmoGenetico.crossover: roll is the np.random.random() draw compared
    with taxa_crossover, mask the 4 boolean draws of mascara. On the crossover
    branch the child is renormalized; otherwise pai1.copy() is returned. -/
def crossover (ga : GA) (pai1 pai2 : Vec4) (roll : ℚ) (mask : Fin 4 → Bool) : Vec4 :=
  if roll < ga.taxa_crossover then renorm (npWhere mask pai1 pai2)
  else pai1

/-- AlgoritmoGenetico.mutacao: roll is the np.random.random() draw, idx the
    np.random.randint(4) draw, noise the np.random.normal(0, 0.1) draw. On the
    mutation branch one position is perturbed, np.abs is applied and the vector
    is renormalized; otherwise the input is returned unchanged. -/
def mutacao (ga : GA) (individuo : Vec4) (roll : ℚ) (idx : Fin 4) (noise : ℚ) : Vec4 :=
  if roll < ga.taxa_mutacao then
    renorm (absV (Function.update individuo idx (individuo idx + noise)))
  else individuo

/-- All four components nonnegative. -/
def nonnegV (v : Vec4) : Prop := 0 ≤ v 0 ∧ 0 ≤ v 1 ∧ 0 ≤ v 2 ∧ 0 ≤ v 3

/-- The module-level hyperparameters of the script (TAMANHO_POPULACAO etc.). -/
def gaDefault : GA := ⟨100, 0.7, 0.01, 100, 3⟩

/-- Concrete crossover mask taking position 0 from pai1 and the rest from pai2. -/
def maskTFFF : Fin 4 → Bool := ![true, false, false, false]

/-- Concrete two-individual population used in counterexamples. -/
def pop2 : List Vec4 := [mkV 1 0 0 0, mkV 0 1 0 0]

/-- Hyperparameters with torneio_k equal to the size of pop2. -/
def ga2 : GA := ⟨2, 7/10, 1/100, 100, 2⟩

/-- Random draws consumed by one offspring: the two tournament index draws,
    the crossover roll and mask, and the mutation roll, position and noise. -/
structure OffDraws where
  t1 : List ℕ
  t2 : List ℕ
  crossRoll : ℚ
  mask : Fin 4 → Bool
  mutRoll : ℚ
  mutIdx : Fin 4
  noise : ℚ

/-- One offspring of the while loop in executar: two tournament selections,
    then crossover, then mutacao. -/
def offspring (ga : GA) (populacao : List Vec4) (fitness_values : List ℚ)
    (d : OffDraws) : Vec4 :=
  mutacao ga
    (crossover ga (selecao_torneio populacao fitness_values d.t1)
      (selecao_torneio populacao fitness_values d.t2) d.crossRoll d.mask)
    d.mutRoll d.mutIdx d.noise

/-- The while loop of executar: append offspring mk acc.length until the
    accumulated list reaches tamanho_pop members. -/
def buildLoop (P : ℕ) (mk : ℕ → Vec4) (acc : List Vec4) : List Vec4 :=
  if acc.length < P then buildLoop P mk (acc ++ [mk acc.length]) else acc
termination_by P - acc.length
decreasing_by
  simp only [List.length_append, List.length_cons, List.length_nil]
  omega

/-- The mutable run state of AlgoritmoGenetico set up in __init__:
    historico_custos starts [], melhor_solucao None, melhor_custo inf.
    The value none of melhor_custo stands for float inf. -/
structure RunState where
  historico_custos : List ℚ
  melhor_solucao : Option Vec4
  melhor_custo : Option ℚ

/-- State right after AlgoritmoGenetico.__init__. -/
def initState : RunState := ⟨[], none, none⟩

/-- Comparison melhor_fitness < self.melhor_custo, where none stands for inf. -/
def ltCusto (x : ℚ) (m : Option ℚ) : Bool :=
  match m with
  | none => true
  | some c => decide (x < c)

/-- Best (lowest) fitness of a population, the value appended to
    historico_custos each generation. -/
def genBest (populacao : List Vec4) : ℚ :=
  (populacao.map fitness).getD (argminList (populacao.map fitness)) 0

/-- One iteration of the generation loop of executar: evaluate fitness, find
    the argmin, append its fitness to historico_custos, update the all-time
    best on strict improvement, and build the next population starting from
    the elitism copy of the best individual. -/
def generationStep (ga : GA) (populacao : List Vec4) (st : RunState)
    (ds : ℕ → OffDraws) : List Vec4 × RunState :=
  let fitness_values := populacao.map fitness
  let melhor_idx := argminList fitness_values
  let melhor_fitness := fitness_values.getD melhor_idx 0
  let historico := st.historico_custos ++ [melhor_fitness]
  let stNew : RunState :=
    if ltCusto melhor_fitness st.melhor_custo then
      ⟨historico, some (populacao.getD melhor_idx vzero), some melhor_fitness⟩
    else ⟨historico, st.melhor_solucao, st.melhor_custo⟩
  let nova := buildLoop ga.tamanho_pop
    (fun n => offspring ga populacao fitness_values (ds n))
    [populacao.getD melhor_idx vzero]
  (nova, stNew)

/-- The generation loop of executar from generation g with n generations left;
    gds gives the draws of each generation. -/
def runFrom (ga : GA) (gds : ℕ → ℕ → OffDraws) :
    ℕ → ℕ → List Vec4 → RunState → List Vec4 × RunState
  | _, 0, populacao, st => (populacao, st)
  | g, n + 1, populacao, st =>
    let s := generationStep ga populacao st (gds g)
    runFrom ga gds (g + 1) n s.1 s.2

/-- AlgoritmoGenetico.executar on an instance whose mutable state is st:
    create the population, run geracoes generations, and return
    (melhor_solucao, melhor_custo) together with the updated state. -/
def executar (ga : GA) (init : ℕ → Vec4) (gds : ℕ → ℕ → OffDraws)
    (st : RunState) : (Option Vec4 × Option ℚ) × RunState :=
  let s := runFrom ga gds 0 ga.geracoes (criar_populacao ga init) st
  ((s.2.melhor_solucao, s.2.melhor_custo), s.2)

/-- Minimum update of the all-time best: none stands for inf. -/
def minOpt (m : Option ℚ) (x : ℚ) : Option ℚ :=
  match m with
  | none => some x
  | some c => some (min x c)

/-- Minimum of a rational list as an Option (none on the empty list). -/
def listMinOpt (l : List ℚ) : Option ℚ := l.foldl minOpt none

/-- Order on Option ℚ with none as the top element inf. -/
def leOpt : Option ℚ → Option ℚ → Prop
  | _, none => True
  | none, some _ => False
  | some a, some b => a ≤ b

/-- State of a fresh instance after k generations of its first executar call. -/
def runK (ga : GA) (init : ℕ → Vec4) (gds : ℕ → ℕ → OffDraws) (k : ℕ) :
    List Vec4 × RunState :=
  runFrom ga gds 0 k (criar_populacao ga init) initState

/-- Renormalization with the NumPy NaN outcome made explicit: an entry none
    stands for a NaN float. Dividing the zero-sum vector by its sum 0 in NumPy
    yields NaN in every entry and raises nothing. -/
def renormN (v : Vec4) : Fin 4 → Option ℚ :=
  if sumV v = 0 then fun _ => none else fun i => some (v i / sumV v)

/-- AlgoritmoGenetico.crossover with the Python exception channel made
    explicit. The source contains no raise statement and NumPy float division
    by zero raises no exception, so every branch returns Except.ok. -/
def crossoverN (ga : GA) (pai1 pai2 : Vec4) (roll : ℚ) (mask : Fin 4 → Bool) :
    Except String (Fin 4 → Option ℚ) :=
  if roll < ga.taxa_crossover then Except.ok (renormN (npWhere mask pai1 pai2))
  else Except.ok (fun i => some (pai1 i))

/-- AlgoritmoGenetico.mutacao with the Python exception channel made explicit;
    as with crossoverN, no branch can raise. -/
def mutacaoN (ga : GA) (individuo : Vec4) (roll : ℚ) (idx : Fin 4) (noise : ℚ) :
    Except String (Fin 4 → Option ℚ) :=
  if roll < ga.taxa_mutacao then
    Except.ok (renormN (absV (Function.update individuo idx (individuo idx + noise))))
  else Except.ok (fun i => some (individuo i))

/-- Heap of NumPy arrays: the genetic operators are re-modelled below with
    explicit references (indices into the heap) so that the copy-vs-alias
    discipline of the source is visible. -/
abbrev Heap := List Vec4

/-- Dereference a NumPy array reference. -/
def readH (h : Heap) (r : ℕ) : Vec4 := h.getD r vzero

/-- Allocate a fresh array holding v, returning the new heap and reference. -/
def allocH (h : Heap) (v : Vec4) : Heap × ℕ := (h ++ [v], h.length)

/-- Overwrite the array at reference r in place. -/
def writeH (h : Heap) (r : ℕ) (v : Vec4) : Heap := h.set r v

/-- selecao_torneio on the heap: populacao[melhor_idx].copy() allocates a
    fresh array holding the value of the selected population cell. -/
def selecao_torneioH (popRefs : List ℕ) (fitness_values : List ℚ)
    (idxs : List ℕ) (h : Heap) : Heap × ℕ :=
  let t := argminList (idxs.map (fun i => fitness_values.getD i 0))
  let melhor_idx := idxs.getD t 0
  allocH h (readH h (popRefs.getD melhor_idx 0))

/-- crossover on the heap: both np.where followed by division and pai1.copy()
    allocate a fresh array; neither branch writes to an existing array. -/
def crossoverH (ga : GA) (r1 r2 : ℕ) (roll : ℚ) (mask : Fin 4 → Bool)
    (h : Heap) : Heap × ℕ :=
  if roll < ga.taxa_crossover then
    allocH h (renorm (npWhere mask (readH h r1) (readH h r2)))
  else allocH h (readH h r1)

/-- mutacao on the heap: the statement individuo[idx] += noise writes the
    argument array in place; np.abs and the division then allocate a fresh
    array which is returned. The no-mutation branch returns the argument
    reference unchanged. -/
def mutacaoH (ga : GA) (r : ℕ) (roll : ℚ) (idx : Fin 4) (noise : ℚ)
    (h : Heap) : Heap × ℕ :=
  if roll < ga.taxa_mutacao then
    let v := readH h r
    let h1 := writeH h r (Function.update v idx (v idx + noise))
    allocH h1 (renorm (absV (readH h1 r)))
  else (h, r)

/-- One offspring of the while loop of executar, on the heap. -/
def offspringH (ga : GA) (popRefs : List ℕ) (fitness_values : List ℚ)
    (d : OffDraws) (h : Heap) : Heap × ℕ :=
  let s1 := selecao_torneioH popRefs fitness_values d.t1 h
  let s2 := selecao_torneioH popRefs fitness_values d.t2 s1.1
  let c := crossoverH ga s1.2 s2.2 d.crossRoll d.mask s2.1
  mutacaoH ga c.2 d.mutRoll d.mutIdx d.noise c.1

/-- Concrete offspring draws whose rolls 1 take neither stochastic branch. -/
def d0 : OffDraws := ⟨[0], [0], 1, maskTFFF, 1, 0, 0⟩

/-- Small concrete configuration: population 2, two generations, torneio 2. -/
def gaSmall : GA := ⟨2, 7/10, 1/100, 2, 2⟩

/-- Concrete initial-population draws. -/
def initConst : ℕ → Vec4 := fun _ => mkV 1 1 1 1

/-- Concrete per-generation draws. -/
def gdsConst : ℕ → ℕ → OffDraws := fun _ _ => d0

lemma penTermMin (w t x : ℚ) :
    (if x < t then w * (t - x) else 0) = w * max 0 (t - x) := by
  split
  · rw [max_eq_right (by linarith)]
  · rw [max_eq_left (by linarith), mul_zero]

lemma penTermMax (w t x : ℚ) :
    (if x > t then w * (x - t) else 0) = w * max 0 (x - t) := by
  split
  · rw [max_eq_right (by linarith)]
  · rw [max_eq_left (by linarith), mul_zero]

/-- C1: calcular_penalidades is the sum over the four constraints of the fixed
    weight (100, 50, 200, 150) times the nonnegative violation magnitude, hence
    it is always nonnegative, and it is exactly 0 for any candidate whose
    blended properties satisfy all four thresholds simultaneously. -/
theorem C1_calcular_penalidades_spec (v : Vec4) :
    calcular_penalidades v =
      100 * max 0 (specs.octanagem_min - (calcular_propriedades v).1) +
      50 * max 0 ((calcular_propriedades v).2.1 - specs.pressao_vapor_max) +
      200 * max 0 ((calcular_propriedades v).2.2.1 - specs.benzeno_max) +
      150 * max 0 ((calcular_propriedades v).2.2.2 - specs.enxofre_max) ∧
    0 ≤ calcular_penalidades v ∧
    (specs.octanagem_min ≤ (calcular_propriedades v).1 →
     (calcular_propriedades v).2.1 ≤ specs.pressao_vapor_max →
     (calcular_propriedades v).2.2.1 ≤ specs.benzeno_max →
     (calcular_propriedades v).2.2.2 ≤ specs.enxofre_max →
     calcular_penalidades v = 0) := by
  have hsum : calcular_penalidades v =
      100 * max 0 (specs.octanagem_min - (calcular_propriedades v).1) +
      50 * max 0 ((calcular_propriedades v).2.1 - specs.pressao_vapor_max) +
      200 * max 0 ((calcular_propriedades v).2.2.1 - specs.benzeno_max) +
      150 * max 0 ((calcular_propriedades v).2.2.2 - specs.enxofre_max) := by
    simp only [calcular_penalidades]
    rw [penTermMin, penTermMax, penTermMax, penTermMax]
  refine ⟨hsum, ?_, ?_⟩
  · rw [hsum]
    have h1 : (0:ℚ) ≤ max 0 (specs.octanagem_min - (calcular_propriedades v).1) :=
      le_max_left 0 _
    have h2 : (0:ℚ) ≤ max 0 ((calcular_propriedades v).2.1 - specs.pressao_vapor_max) :=
      le_max_left 0 _
    have h3 : (0:ℚ) ≤ max 0 ((calcular_propriedades v).2.2.1 - specs.benzeno_max) :=
      le_max_left 0 _
    have h4 : (0:ℚ) ≤ max 0 ((calcular_propriedades v).2.2.2 - specs.enxofre_max) :=
      le_max_left 0 _
    linarith
  · intro h1 h2 h3 h4
    rw [hsum, max_eq_left (by linarith), max_eq_left (by linarith),
        max_eq_left (by linarith), max_eq_left (by linarith)]
    ring

/-- Witness for C1 at the feasible blend (0.55, 0.25, 0.20, 0). -/
theorem C1_witness :
    calcular_penalidades (mkV (11/20) (1/4) (1/5) 0) = 0 := by
  refine (C1_calcular_penalidades_spec (mkV (11/20) (1/4) (1/5) 0)).2.2 ?_ ?_ ?_ ?_ <;>
    norm_num [calcular_propriedades, dotV, mkV, componentes, specs,
      Matrix.cons_val_zero, Matrix.cons_val_one, Matrix.head_cons,
      Matrix.cons_val_two, Matrix.cons_val_three, Matrix.vecTail, Matrix.vecHead]

/-- C9: the all-components-equal blend has octane exactly 90 (below the minimum
    91), vapor pressure 60.5, benzene 1.8 and sulfur 47.5 all within their
    maxima, penalty exactly 100, cost exactly 2.525 and fitness 102.525. -/
theorem C9_equal_blend :
    calcular_propriedades (mkV (1/4) (1/4) (1/4) (1/4)) = (90, 121/2, 9/5, 95/2) ∧
    (calcular_propriedades (mkV (1/4) (1/4) (1/4) (1/4))).1 < specs.octanagem_min ∧
    (calcular_propriedades (mkV (1/4) (1/4) (1/4) (1/4))).2.1 ≤ specs.pressao_vapor_max ∧
    (calcular_propriedades (mkV (1/4) (1/4) (1/4) (1/4))).2.2.1 ≤ specs.benzeno_max ∧
    (calcular_propriedades (mkV (1/4) (1/4) (1/4) (1/4))).2.2.2 ≤ specs.enxofre_max ∧
    calcular_penalidades (mkV (1/4) (1/4) (1/4) (1/4)) = 100 ∧
    calcular_custo (mkV (1/4) (1/4) (1/4) (1/4)) = 2.525 ∧
    fitness (mkV (1/4) (1/4) (1/4) (1/4)) = 102.525 := by
  norm_num [calcular_propriedades, calcular_penalidades, calcular_custo, fitness,
    dotV, mkV, componentes, specs,
    Matrix.cons_val_zero, Matrix.cons_val_one, Matrix.head_cons,
    Matrix.cons_val_two, Matrix.cons_val_three, Matrix.vecTail, Matrix.vecHead]

lemma sumV_renorm (v : Vec4) (h : sumV v ≠ 0) : sumV (renorm v) = 1 := by
  have hs : v 0 + v 1 + v 2 + v 3 ≠ 0 := h
  simp only [sumV, renorm]
  rw [div_add_div_same, div_add_div_same, div_add_div_same]
  exact div_self hs

lemma renorm_nonneg (v : Vec4) (h : nonnegV v) (hs : 0 < sumV v) :
    nonnegV (renorm v) := by
  obtain ⟨h0, h1, h2, h3⟩ := h
  exact ⟨div_nonneg h0 hs.le, div_nonneg h1 hs.le,
         div_nonneg h2 hs.le, div_nonneg h3 hs.le⟩

lemma npWhere_nonneg (mask : Fin 4 → Bool) (p1 p2 : Vec4)
    (h1 : nonnegV p1) (h2 : nonnegV p2) : nonnegV (npWhere mask p1 p2) := by
  obtain ⟨a0, a1, a2, a3⟩ := h1
  obtain ⟨b0, b1, b2, b3⟩ := h2
  refine ⟨?_, ?_, ?_, ?_⟩ <;> unfold npWhere <;> split <;> assumption

lemma absV_nonneg (v : Vec4) : nonnegV (absV v) :=
  ⟨abs_nonneg _, abs_nonneg _, abs_nonneg _, abs_nonneg _⟩

/-- C2 (amended): every candidate produced by criar_individuo, crossover or
    mutacao whose pre-normalization vector has positive sum is componentwise
    nonnegative and sums exactly to 1; the positivity proviso excludes the
    degenerate zero-sum renormalization refuted in the counterexample. -/
theorem C2_normalization_invariant :
    (∀ d : Vec4, nonnegV d → 0 < sumV d →
      nonnegV (criar_individuo d) ∧ sumV (criar_individuo d) = 1) ∧
    (∀ (ga : GA) (p1 p2 : Vec4) (roll : ℚ) (mask : Fin 4 → Bool),
      nonnegV p1 → sumV p1 = 1 → nonnegV p2 → sumV p2 = 1 →
      (roll < ga.taxa_crossover → 0 < sumV (npWhere mask p1 p2)) →
      nonnegV (crossover ga p1 p2 roll mask) ∧
        sumV (crossover ga p1 p2 roll mask) = 1) ∧
    (∀ (ga : GA) (v : Vec4) (roll : ℚ) (idx : Fin 4) (noise : ℚ),
      nonnegV v → sumV v = 1 →
      (roll < ga.taxa_mutacao →
        0 < sumV (absV (Function.update v idx (v idx + noise)))) →
      nonnegV (mutacao ga v roll idx noise) ∧
        sumV (mutacao ga v roll idx noise) = 1) := by
  refine ⟨?_, ?_, ?_⟩
  · intro d hd hs
    exact ⟨renorm_nonneg d hd hs, sumV_renorm d hs.ne'⟩
  · intro ga p1 p2 roll mask h1 hs1 h2 hs2 hpos
    unfold crossover
    split
    · rename_i hroll
      have hchild := hpos hroll
      exact ⟨renorm_nonneg _ (npWhere_nonneg mask p1 p2 h1 h2) hchild,
             sumV_renorm _ hchild.ne'⟩
    · exact ⟨h1, hs1⟩
  · intro ga v roll idx noise hv hs hpos
    unfold mutacao
    split
    · rename_i hroll
      have habs := hpos hroll
      exact ⟨renorm_nonneg _ (absV_nonneg _) habs, sumV_renorm _ habs.ne'⟩
    · exact ⟨hv, hs⟩

/-- Counterexample to C2 as stated: the parents (0,1,0,0) and (1,0,0,0) are
    nonnegative and sum to 1, yet with the crossover branch taken and the mask
    selecting position 0 from pai1 and the rest from pai2 the child is the zero
    vector, so the returned candidate does not sum to 1 within any tolerance
    (in NumPy the division 0/0 yields NaN entries; in this rational embedding
    the returned vector sums to 0). -/
theorem C2_counterexample :
    nonnegV (mkV 0 1 0 0) ∧ sumV (mkV 0 1 0 0) = 1 ∧
    nonnegV (mkV 1 0 0 0) ∧ sumV (mkV 1 0 0 0) = 1 ∧
    (0:ℚ) < gaDefault.taxa_crossover ∧
    sumV (npWhere maskTFFF (mkV 0 1 0 0) (mkV 1 0 0 0)) = 0 ∧
    sumV (crossover gaDefault (mkV 0 1 0 0) (mkV 1 0 0 0) 0 maskTFFF) = 0 ∧
    ¬ |sumV (crossover gaDefault (mkV 0 1 0 0) (mkV 1 0 0 0) 0 maskTFFF) - 1|
        ≤ 1 / 1000000000 := by
  norm_num [nonnegV, sumV, crossover, renorm, npWhere, mkV, maskTFFF, gaDefault,
    Matrix.cons_val_zero, Matrix.cons_val_one, Matrix.head_cons,
    Matrix.cons_val_two, Matrix.cons_val_three, Matrix.vecTail, Matrix.vecHead]

/-- Witness for C2 at concrete inputs for each of the three operators. -/
theorem C2_witness :
    (nonnegV (criar_individuo (mkV 1 1 1 1)) ∧
      sumV (criar_individuo (mkV 1 1 1 1)) = 1) ∧
    (nonnegV (crossover gaDefault (mkV (1/2) (1/2) 0 0) (mkV (1/4) (1/4) (1/4) (1/4))
        0 maskTFFF) ∧
      sumV (crossover gaDefault (mkV (1/2) (1/2) 0 0) (mkV (1/4) (1/4) (1/4) (1/4))
        0 maskTFFF) = 1) ∧
    (nonnegV (mutacao gaDefault (mkV 1 0 0 0) 1 0 0) ∧
      sumV (mutacao gaDefault (mkV 1 0 0 0) 1 0 0) = 1) := by
  refine ⟨C2_normalization_invariant.1 (mkV 1 1 1 1) ?_ ?_,
          C2_normalization_invariant.2.1 gaDefault _ _ 0 maskTFFF ?_ ?_ ?_ ?_ ?_,
          C2_normalization_invariant.2.2 gaDefault _ 1 0 0 ?_ ?_ ?_⟩ <;>
    · intros
      norm_num [nonnegV, sumV, npWhere, mkV, maskTFFF, gaDefault,
        Matrix.cons_val_zero, Matrix.cons_val_one, Matrix.head_cons,
        Matrix.cons_val_two, Matrix.cons_val_three, Matrix.vecTail, Matrix.vecHead] at *

/-- C6: on the no-crossover branch (in particular always when taxa_crossover is
    0, since the uniform roll is nonnegative) crossover returns pai1 unchanged. -/
theorem C6_no_crossover_copy (ga : GA) (p1 p2 : Vec4) (roll : ℚ)
    (mask : Fin 4 → Bool) :
    (0 ≤ roll → ga.taxa_crossover = 0 → crossover ga p1 p2 roll mask = p1) ∧
    (¬ roll < ga.taxa_crossover → crossover ga p1 p2 roll mask = p1) := by
  constructor
  · intro h0 htx
    unfold crossover
    rw [htx, if_neg (by linarith)]
  · intro h
    unfold crossover
    rw [if_neg h]

/-- Witness for C6 with crossover rate 0 and roll 1/2. -/
theorem C6_witness :
    crossover ⟨100, 0, 1/100, 100, 3⟩ (mkV 1 0 0 0) (mkV 0 1 0 0) (1/2) maskTFFF
      = mkV 1 0 0 0 :=
  (C6_no_crossover_copy ⟨100, 0, 1/100, 100, 3⟩ (mkV 1 0 0 0) (mkV 0 1 0 0)
    (1/2) maskTFFF).1 (by norm_num) rfl

lemma argminList_lt : ∀ l : List ℚ, l ≠ [] → argminList l < l.length
  | [], h => absurd rfl h
  | [_], _ => by simp [argminList]
  | x :: y :: ys, _ => by
    simp only [argminList]
    split
    · simp
    · have ih := argminList_lt (y :: ys) (by simp)
      simpa [List.length_cons] using Nat.succ_lt_succ ih

lemma argminList_le : ∀ (l : List ℚ) (i : ℕ), i < l.length →
    l.getD (argminList l) 0 ≤ l.getD i 0
  | [], i, h => by simp at h
  | [x], i, h => by
    have : i = 0 := by simpa using Nat.lt_one_iff.mp (by simpa using h)
    simp [argminList, this]
  | x :: y :: ys, i, h => by
    simp only [argminList]
    split
    · rename_i hc
      match i with
      | 0 => simp
      | k + 1 =>
        have hk : k < (y :: ys).length := by
          simpa [List.length_cons] using Nat.lt_of_succ_lt_succ h
        have ih := argminList_le (y :: ys) k hk
        calc (x :: y :: ys).getD 0 0 = x := rfl
          _ ≤ (y :: ys).getD (argminList (y :: ys)) 0 := hc
          _ ≤ (y :: ys).getD k 0 := ih
          _ = (x :: y :: ys).getD (k + 1) 0 := rfl
    · rename_i hc
      push_neg at hc
      match i with
      | 0 =>
        have : (x :: y :: ys).getD (argminList (y :: ys) + 1) 0
            = (y :: ys).getD (argminList (y :: ys)) 0 := rfl
        rw [this]
        exact hc.le
      | k + 1 =>
        have hk : k < (y :: ys).length := by
          simpa [List.length_cons] using Nat.lt_of_succ_lt_succ h
        exact argminList_le (y :: ys) k hk

lemma getD_map_comp (f : ℕ → ℚ) (l : List ℕ) (j : ℕ) (hj : j < l.length) :
    (l.map f).getD j 0 = f (l.getD j 0) := by
  rw [List.getD_eq_getElem _ _ (by simpa using hj), List.getElem_map,
      List.getD_eq_getElem _ _ hj]

/-- C5 (amended): selecao_torneio returns the strict fitness-minimizer of the
    population whenever the fitness values are pairwise distinct and every
    population index occurs among the drawn tournament indices. Because the
    indices are drawn with replacement, torneio_k equal to the population size
    does not by itself guarantee the coverage, as the counterexample shows. -/
theorem C5_selecao_torneio_cover (populacao : List Vec4) (fit : List ℚ)
    (idxs : List ℕ)
    (hlen : fit.length = populacao.length) (hpop : 0 < populacao.length)
    (hvalid : ∀ i ∈ idxs, i < populacao.length)
    (hcover : ∀ m, m < populacao.length → m ∈ idxs)
    (hdist : ∀ i j, i < fit.length → j < fit.length →
      fit.getD i 0 = fit.getD j 0 → i = j) :
    selecao_torneio populacao fit idxs =
      populacao.getD (argminList fit) vzero := by
  have hfitne : fit ≠ [] := by
    intro hnil
    rw [hnil] at hlen
    simp at hlen
    omega
  have hm_lt : argminList fit < fit.length := argminList_lt fit hfitne
  set m := argminList fit with hm
  have hm_mem : m ∈ idxs := hcover m (hlen ▸ hm_lt)
  obtain ⟨j, hj, hjm⟩ := List.getElem_of_mem hm_mem
  set M := idxs.map (fun i => fit.getD i 0) with hM
  have hMlen : M.length = idxs.length := List.length_map _ _
  have hidxs_ne : idxs ≠ [] := List.ne_nil_of_mem hm_mem
  have hM_ne : M ≠ [] := by
    intro hnil
    rw [hnil] at hMlen
    exact hidxs_ne (List.eq_nil_of_length_eq_zero hMlen.symm)
  have ht_lt : argminList M < M.length := argminList_lt M hM_ne
  set t := argminList M with ht
  set k := idxs.getD t 0 with hk
  have ht_idxs : t < idxs.length := hMlen ▸ ht_lt
  have hk_mem : k ∈ idxs := by
    rw [hk, List.getD_eq_getElem _ _ ht_idxs]
    exact List.getElem_mem _
  have hk_lt : k < populacao.length := hvalid k hk_mem
  have hMt : M.getD t 0 = fit.getD k 0 := getD_map_comp _ idxs t ht_idxs
  have hMj : M.getD j 0 = fit.getD m 0 := by
    rw [getD_map_comp _ idxs j hj, List.getD_eq_getElem _ _ hj, hjm]
  have h1 : fit.getD k 0 ≤ fit.getD m 0 := by
    rw [← hMt, ← hMj]
    exact argminList_le M j (hMlen ▸ hj)
  have h2 : fit.getD m 0 ≤ fit.getD k 0 :=
    argminList_le fit k (hlen ▸ hk_lt)
  have hkm : k = m :=
    hdist k m (hlen ▸ hk_lt) hm_lt (le_antisymm h1 h2)
  show populacao.getD (idxs.getD (argminList M) 0) vzero = _
  rw [← ht, ← hk, hkm]

/-- Counterexample to C5 as stated: pop2 has pairwise-distinct fitness values
    (303 < 1752.5) and torneio_k equals the population size 2, yet the
    with-replacement index draw (0, 0) makes selecao_torneio return the
    individual of index 0 and not the strict fitness-minimizer at index 1. -/
theorem C5_counterexample :
    ga2.torneio_k = pop2.length ∧
    ([0, 0] : List ℕ).length = ga2.torneio_k ∧
    fitness (mkV 0 1 0 0) < fitness (mkV 1 0 0 0) ∧
    argminList (pop2.map fitness) = 1 ∧
    selecao_torneio pop2 (pop2.map fitness) [0, 0] = mkV 1 0 0 0 ∧
    selecao_torneio pop2 (pop2.map fitness) [0, 0]
      ≠ pop2.getD (argminList (pop2.map fitness)) vzero := by
  have hf1 : fitness (mkV 1 0 0 0) = 3505/2 := by
    norm_num [fitness, calcular_custo, calcular_penalidades, calcular_propriedades,
      dotV, mkV, componentes, specs,
      Matrix.cons_val_zero, Matrix.cons_val_one, Matrix.head_cons,
      Matrix.cons_val_two, Matrix.cons_val_three, Matrix.vecTail, Matrix.vecHead]
  have hf2 : fitness (mkV 0 1 0 0) = 303 := by
    norm_num [fitness, calcular_custo, calcular_penalidades, calcular_propriedades,
      dotV, mkV, componentes, specs,
      Matrix.cons_val_zero, Matrix.cons_val_one, Matrix.head_cons,
      Matrix.cons_val_two, Matrix.cons_val_three, Matrix.vecTail, Matrix.vecHead]
  have hmap : pop2.map fitness = [3505/2, 303] := by
    simp [pop2, hf1, hf2]
  have hargmin : argminList ([3505/2, 303] : List ℚ) = 1 := by
    norm_num [argminList, List.getD]
  have hsel : selecao_torneio pop2 ([3505/2, 303] : List ℚ) [0, 0] = mkV 1 0 0 0 := by
    simp [selecao_torneio, argminList, List.getD, pop2]
  have hne : mkV 1 0 0 0 ≠ mkV 0 1 0 0 := by
    intro h
    have h0 := congrFun h 0
    norm_num [mkV] at h0
  refine ⟨rfl, rfl, by rw [hf1, hf2]; norm_num, by rw [hmap, hargmin], ?_, ?_⟩
  · rw [hmap, hsel]
  · rw [hmap, hsel, hargmin]
    simpa [pop2, List.getD] using hne

/-- Witness for the amended C5: with the covering draw (1, 0) over pop2 the
    tournament returns the strict fitness-minimizer. -/
theorem C5_witness :
    selecao_torneio pop2 (pop2.map fitness) [1, 0] =
      pop2.getD (argminList (pop2.map fitness)) vzero := by
  refine C5_selecao_torneio_cover pop2 (pop2.map fitness) [1, 0] ?_ ?_ ?_ ?_ ?_
  · simp
  · simp [pop2]
  · intro i hi
    have h10 : i = 1 ∨ i = 0 := by simpa using hi
    rcases h10 with h | h <;> simp [pop2, h]
  · intro m hm
    have h2 : pop2.length = 2 := by simp [pop2]
    rw [h2] at hm
    interval_cases m <;> simp
  · have hf1 : fitness (mkV 1 0 0 0) = 3505/2 := by
      norm_num [fitness, calcular_custo, calcular_penalidades, calcular_propriedades,
        dotV, mkV, componentes, specs,
        Matrix.cons_val_zero, Matrix.cons_val_one, Matrix.head_cons,
        Matrix.cons_val_two, Matrix.cons_val_three, Matrix.vecTail, Matrix.vecHead]
    have hf2 : fitness (mkV 0 1 0 0) = 303 := by
      norm_num [fitness, calcular_custo, calcular_penalidades, calcular_propriedades,
        dotV, mkV, componentes, specs,
        Matrix.cons_val_zero, Matrix.cons_val_one, Matrix.head_cons,
        Matrix.cons_val_two, Matrix.cons_val_three, Matrix.vecTail, Matrix.vecHead]
    have hmap : pop2.map fitness = [3505/2, 303] := by simp [pop2, hf1, hf2]
    rw [hmap]
    intro i j hi hj h
    simp only [List.length_cons, List.length_nil] at hi hj
    interval_cases i <;> interval_cases j <;> norm_num [List.getD] at h ⊢

/-- Counterexample to C7 as stated: with the crossover branch taken and a child
    that sums to zero, crossover does not fail with a fatal error; it returns a
    candidate whose entries are all NaN (modelled none), wrapped in Except.ok
    because the source has no raise statement and NumPy float division by zero
    raises nothing. -/
theorem C7_counterexample :
    sumV (npWhere maskTFFF (mkV 0 1 0 0) (mkV 1 0 0 0)) = 0 ∧
    (0:ℚ) < gaDefault.taxa_crossover ∧
    crossoverN gaDefault (mkV 0 1 0 0) (mkV 1 0 0 0) 0 maskTFFF =
      Except.ok (fun _ => none) := by
  have hz : sumV (npWhere maskTFFF (mkV 0 1 0 0) (mkV 1 0 0 0)) = 0 := by
    norm_num [sumV, npWhere, mkV, maskTFFF,
      Matrix.cons_val_zero, Matrix.cons_val_one, Matrix.head_cons,
      Matrix.cons_val_two, Matrix.cons_val_three, Matrix.vecTail, Matrix.vecHead]
  refine ⟨hz, by norm_num [gaDefault], ?_⟩
  unfold crossoverN
  rw [if_pos (by norm_num [gaDefault])]
  unfold renormN
  rw [if_pos hz]

/-- C7 (amended): when the renormalization denominator of a crossover or
    mutation result is 0, the operation raises no error; the NumPy division
    produces a candidate with every entry NaN (modelled none) and this
    candidate is returned normally, so the run continues. -/
theorem C7_degenerate_renorm_no_error :
    (∀ (ga : GA) (p1 p2 : Vec4) (roll : ℚ) (mask : Fin 4 → Bool),
      roll < ga.taxa_crossover → sumV (npWhere mask p1 p2) = 0 →
      crossoverN ga p1 p2 roll mask = Except.ok (fun _ => none)) ∧
    (∀ (ga : GA) (v : Vec4) (roll : ℚ) (idx : Fin 4) (noise : ℚ),
      roll < ga.taxa_mutacao →
      sumV (absV (Function.update v idx (v idx + noise))) = 0 →
      mutacaoN ga v roll idx noise = Except.ok (fun _ => none)) := by
  constructor
  · intro ga p1 p2 roll mask hroll hz
    unfold crossoverN
    rw [if_pos hroll]
    unfold renormN
    rw [if_pos hz]
  · intro ga v roll idx noise hroll hz
    unfold mutacaoN
    rw [if_pos hroll]
    unfold renormN
    rw [if_pos hz]

/-- Witness for the amended C7, on the mutation side: perturbing the only
    positive entry of (1,0,0,0) by noise -1 gives the zero vector, and mutacao
    returns the NaN-filled candidate without error. -/
theorem C7_witness :
    mutacaoN gaDefault (mkV 1 0 0 0) 0 0 (-1) = Except.ok (fun _ => none) := by
  refine C7_degenerate_renorm_no_error.2 gaDefault (mkV 1 0 0 0) 0 0 (-1)
    (by norm_num [gaDefault]) ?_
  norm_num [sumV, absV, mkV, Function.update,
    Matrix.cons_val_zero, Matrix.cons_val_one, Matrix.head_cons,
    Matrix.cons_val_two, Matrix.cons_val_three, Matrix.vecTail, Matrix.vecHead]

lemma buildLoop_eq (P : ℕ) (mk : ℕ → Vec4) :
    ∀ (n : ℕ) (acc : List Vec4), P - acc.length ≤ n →
      buildLoop P mk acc =
        acc ++ (List.range (P - acc.length)).map (fun j => mk (acc.length + j))
  | 0, acc, h => by
    have hnl : ¬ acc.length < P := by omega
    rw [buildLoop, if_neg hnl]
    have h0 : P - acc.length = 0 := by omega
    simp [h0]
  | n + 1, acc, h => by
    by_cases hlt : acc.length < P
    · rw [buildLoop, if_pos hlt]
      have hrec := buildLoop_eq P mk n (acc ++ [mk acc.length])
        (by simp only [List.length_append, List.length_cons, List.length_nil]; omega)
      rw [hrec]
      simp only [List.length_append, List.length_cons, List.length_nil, Nat.zero_add]
      rw [List.append_assoc]
      congr 1
      have hP1 : P - acc.length = (P - (acc.length + 1)) + 1 := by omega
      rw [hP1, List.range_succ_eq_map, List.map_cons, List.map_map,
          List.singleton_append]
      have hf : ((fun j => mk (acc.length + j)) ∘ Nat.succ)
          = fun j => mk (acc.length + 1 + j) := by
        funext j
        show mk (acc.length + Nat.succ j) = mk (acc.length + 1 + j)
        have hj : acc.length + Nat.succ j = acc.length + 1 + j := by omega
        rw [hj]
      rw [hf]
      norm_num
    · rw [buildLoop, if_neg hlt]
      have h0 : P - acc.length = 0 := by omega
      simp [h0]

lemma generationStep_historico (ga : GA) (pop : List Vec4) (st : RunState)
    (ds : ℕ → OffDraws) :
    (generationStep ga pop st ds).2.historico_custos
      = st.historico_custos ++ [genBest pop] := by
  simp only [generationStep, genBest]
  split <;> rfl

lemma generationStep_melhor (ga : GA) (pop : List Vec4) (st : RunState)
    (ds : ℕ → OffDraws) :
    (generationStep ga pop st ds).2.melhor_custo
      = minOpt st.melhor_custo (genBest pop) := by
  simp only [generationStep, genBest]
  rw [apply_ite RunState.melhor_custo]
  cases hm : st.melhor_custo with
  | none => rfl
  | some c =>
    by_cases h : (pop.map fitness).getD (argminList (pop.map fitness)) 0 < c
    · rw [if_pos (by simpa [ltCusto] using h)]
      simp only [minOpt, min_eq_left h.le]
    · rw [if_neg (by simpa [ltCusto] using h)]
      simp only [minOpt, min_eq_right (not_lt.mp h)]

lemma runFrom_succ (ga : GA) (gds : ℕ → ℕ → OffDraws) :
    ∀ (n g : ℕ) (pop : List Vec4) (st : RunState),
      runFrom ga gds g (n + 1) pop st =
        generationStep ga (runFrom ga gds g n pop st).1
          (runFrom ga gds g n pop st).2 (gds (g + n))
  | 0, g, pop, st => by simp [runFrom]
  | n + 1, g, pop, st => by
    have ih := runFrom_succ ga gds n (g + 1)
      (generationStep ga pop st (gds g)).1 (generationStep ga pop st (gds g)).2
    calc runFrom ga gds g (n + 2) pop st
        = runFrom ga gds (g + 1) (n + 1) (generationStep ga pop st (gds g)).1
            (generationStep ga pop st (gds g)).2 := rfl
      _ = generationStep ga
            (runFrom ga gds (g + 1) n (generationStep ga pop st (gds g)).1
              (generationStep ga pop st (gds g)).2).1
            (runFrom ga gds (g + 1) n (generationStep ga pop st (gds g)).1
              (generationStep ga pop st (gds g)).2).2 (gds (g + 1 + n)) := ih
      _ = generationStep ga (runFrom ga gds g (n + 1) pop st).1
            (runFrom ga gds g (n + 1) pop st).2 (gds (g + (n + 1))) := by
          have harith : g + 1 + n = g + (n + 1) := by omega
          rw [harith]
          rfl

lemma runFrom_delta (ga : GA) (gds : ℕ → ℕ → OffDraws) :
    ∀ (n g : ℕ) (pop : List Vec4) (st : RunState), ∃ D : List ℚ,
      D.length = n ∧
      (runFrom ga gds g n pop st).2.historico_custos = st.historico_custos ++ D ∧
      (runFrom ga gds g n pop st).2.melhor_custo
        = D.foldl minOpt st.melhor_custo
  | 0, g, pop, st => ⟨[], rfl, by simp [runFrom], by simp [runFrom]⟩
  | n + 1, g, pop, st => by
    obtain ⟨D, hD, hh, hm⟩ := runFrom_delta ga gds n (g + 1)
      (generationStep ga pop st (gds g)).1 (generationStep ga pop st (gds g)).2
    refine ⟨genBest pop :: D, by simp [hD], ?_, ?_⟩
    · show (runFrom ga gds (g + 1) n _ _).2.historico_custos = _
      rw [hh, generationStep_historico]
      simp
    · show (runFrom ga gds (g + 1) n _ _).2.melhor_custo = _
      rw [hm, generationStep_melhor]
      rfl

lemma leOpt_minOpt (m : Option ℚ) (x : ℚ) : leOpt (minOpt m x) m := by
  cases m with
  | none => trivial
  | some c => exact min_le_right x c

lemma fitness_pop2 : pop2.map fitness = [3505/2, 303] := by
  have hf1 : fitness (mkV 1 0 0 0) = 3505/2 := by
    norm_num [fitness, calcular_custo, calcular_penalidades, calcular_propriedades,
      dotV, mkV, componentes, specs,
      Matrix.cons_val_zero, Matrix.cons_val_one, Matrix.head_cons,
      Matrix.cons_val_two, Matrix.cons_val_three, Matrix.vecTail, Matrix.vecHead]
  have hf2 : fitness (mkV 0 1 0 0) = 303 := by
    norm_num [fitness, calcular_custo, calcular_penalidades, calcular_propriedades,
      dotV, mkV, componentes, specs,
      Matrix.cons_val_zero, Matrix.cons_val_one, Matrix.head_cons,
      Matrix.cons_val_two, Matrix.cons_val_three, Matrix.vecTail, Matrix.vecHead]
  simp [pop2, hf1, hf2]

/-- C3: on a fresh instance the recorded all-time best after any n+1 generations
    equals the minimum of the per-generation best fitnesses appended to
    historico_custos so far; the all-time best is non-increasing from one
    generation to the next; and a generation whose best fitness is not strictly
    below the recorded value leaves melhor_custo unchanged. -/
theorem C3_melhor_custo_invariant (ga : GA) (init : ℕ → Vec4)
    (gds : ℕ → ℕ → OffDraws) (n : ℕ) (pop : List Vec4) (s : RunState)
    (ds : ℕ → OffDraws) (c : ℚ)
    (hP : 0 < ga.tamanho_pop)
    (hc : s.melhor_custo = some c) (hcb : c ≤ genBest pop) :
    (runK ga init gds (n + 1)).2.melhor_custo
      = listMinOpt (runK ga init gds (n + 1)).2.historico_custos ∧
    leOpt (runK ga init gds (n + 1)).2.melhor_custo
      (runK ga init gds n).2.melhor_custo ∧
    (generationStep ga pop s ds).2.melhor_custo = some c := by
  refine ⟨?_, ?_, ?_⟩
  · obtain ⟨D, hD, hh, hm⟩ := runFrom_delta ga gds (n + 1) 0
      (criar_populacao ga init) initState
    unfold runK
    rw [hm, hh]
    show D.foldl minOpt initState.melhor_custo
      = listMinOpt (initState.historico_custos ++ D)
    simp [initState, listMinOpt]
  · unfold runK
    rw [runFrom_succ, generationStep_melhor]
    exact leOpt_minOpt _ _
  · rw [generationStep_melhor, hc]
    simp [minOpt, min_eq_right hcb]

/-- Witness for C3 at a concrete configuration and a concrete prior state. -/
theorem C3_witness :
    ((runK gaSmall initConst gdsConst 1).2.melhor_custo
      = listMinOpt (runK gaSmall initConst gdsConst 1).2.historico_custos) ∧
    leOpt (runK gaSmall initConst gdsConst 1).2.melhor_custo
      (runK gaSmall initConst gdsConst 0).2.melhor_custo ∧
    (generationStep gaSmall pop2 (⟨[], none, some 5⟩ : RunState)
      (gdsConst 0)).2.melhor_custo = some 5 :=
  C3_melhor_custo_invariant gaSmall initConst gdsConst 0 pop2 ⟨[], none, some 5⟩
    (gdsConst 0) 5 (by norm_num [gaSmall]) rfl
    (by unfold genBest
        rw [fitness_pop2]
        norm_num [argminList, List.getD])

lemma generationStep_nova (ga : GA) (pop : List Vec4) (st : RunState)
    (ds : ℕ → OffDraws) :
    (generationStep ga pop st ds).1
      = pop.getD (argminList (pop.map fitness)) vzero ::
        (List.range (ga.tamanho_pop - 1)).map
          (fun j => offspring ga pop (pop.map fitness) (ds (1 + j))) := by
  have h := buildLoop_eq ga.tamanho_pop
    (fun n => offspring ga pop (pop.map fitness) (ds n)) ga.tamanho_pop
    [pop.getD (argminList (pop.map fitness)) vzero]
    (by simp only [List.length_cons, List.length_nil]; omega)
  simp only [generationStep]
  rw [h]
  simp only [List.length_cons, List.length_nil, Nat.zero_add, List.singleton_append]

/-- C4: executar performs exactly geracoes generation iterations, appending
    exactly one best-fitness entry to historico_custos per generation (so a
    fresh instance ends with geracoes entries), and every next population has
    exactly tamanho_pop members whose head is the copy of the best individual
    of the current generation and whose k-th member (0 < k < tamanho_pop) is
    the offspring built by selection, crossover, then mutation from the draws
    of slot k. -/
theorem C4_executar_structure (ga : GA) (init : ℕ → Vec4)
    (gds : ℕ → ℕ → OffDraws) (st : RunState) (pop : List Vec4) (s : RunState)
    (ds : ℕ → OffDraws) (k : ℕ)
    (hG : 0 < ga.geracoes) (hP : 0 < ga.tamanho_pop) (hk : 1 ≤ ga.torneio_k)
    (hk0 : 0 < k) (hkP : k < ga.tamanho_pop) :
    (executar ga init gds st).2.historico_custos.length
      = st.historico_custos.length + ga.geracoes ∧
    (executar ga init gds initState).2.historico_custos.length = ga.geracoes ∧
    (generationStep ga pop s ds).1.length = ga.tamanho_pop ∧
    (generationStep ga pop s ds).1.getD 0 vzero
      = pop.getD (argminList (pop.map fitness)) vzero ∧
    (generationStep ga pop s ds).1.getD k vzero
      = offspring ga pop (pop.map fitness) (ds k) := by
  refine ⟨?_, ?_, ?_, ?_, ?_⟩
  · obtain ⟨D, hD, hh, _⟩ := runFrom_delta ga gds ga.geracoes 0
      (criar_populacao ga init) st
    show (runFrom ga gds 0 ga.geracoes (criar_populacao ga init) st).2.historico_custos.length = _
    rw [hh]
    simp [hD]
  · obtain ⟨D, hD, hh, _⟩ := runFrom_delta ga gds ga.geracoes 0
      (criar_populacao ga init) initState
    show (runFrom ga gds 0 ga.geracoes (criar_populacao ga init)
      initState).2.historico_custos.length = _
    rw [hh]
    simp [initState, hD]
  · rw [generationStep_nova]
    simp only [List.length_cons, List.length_map, List.length_range]
    omega
  · rw [generationStep_nova]
    rfl
  · rw [generationStep_nova]
    obtain ⟨m, rfl⟩ : ∃ m, k = m + 1 := ⟨k - 1, by omega⟩
    have hm : m < ((List.range (ga.tamanho_pop - 1)).map
        (fun j => offspring ga pop (pop.map fitness) (ds (1 + j)))).length := by
      simp only [List.length_map, List.length_range]
      omega
    rw [List.getD_cons_succ, List.getD_eq_getElem _ _ hm, List.getElem_map,
        List.getElem_range]
    have : 1 + m = m + 1 := by omega
    rw [this]

/-- Witness for C4 at the concrete small configuration. -/
theorem C4_witness :
    (executar gaSmall initConst gdsConst initState).2.historico_custos.length
      = initState.historico_custos.length + gaSmall.geracoes ∧
    (executar gaSmall initConst gdsConst initState).2.historico_custos.length
      = gaSmall.geracoes ∧
    (generationStep gaSmall pop2 initState (gdsConst 0)).1.length
      = gaSmall.tamanho_pop ∧
    (generationStep gaSmall pop2 initState (gdsConst 0)).1.getD 0 vzero
      = pop2.getD (argminList (pop2.map fitness)) vzero ∧
    (generationStep gaSmall pop2 initState (gdsConst 0)).1.getD 1 vzero
      = offspring gaSmall pop2 (pop2.map fitness) (gdsConst 0 1) :=
  C4_executar_structure gaSmall initConst gdsConst initState pop2 initState
    (gdsConst 0) 1 (by norm_num [gaSmall]) (by norm_num [gaSmall])
    (by norm_num [gaSmall]) (by norm_num) (by norm_num [gaSmall])

/-- C10: a second executar call on the same instance does not reset the run
    state. After the second call historico_custos has 2 * geracoes entries and
    still begins with the entries of the first run, and the melhor_custo
    returned by the second call is the minimum over the per-generation best
    fitnesses of both runs together. -/
theorem C10_second_run (ga : GA) (init1 init2 : ℕ → Vec4)
    (gds1 gds2 : ℕ → ℕ → OffDraws) (i : ℕ)
    (hP : 0 < ga.tamanho_pop) (hi : i < ga.geracoes) :
    (executar ga init2 gds2
        (executar ga init1 gds1 initState).2).2.historico_custos.length
      = 2 * ga.geracoes ∧
    (executar ga init2 gds2
        (executar ga init1 gds1 initState).2).2.historico_custos.getD i 0
      = (executar ga init1 gds1 initState).2.historico_custos.getD i 0 ∧
    (executar ga init2 gds2 (executar ga init1 gds1 initState).2).1.2
      = listMinOpt (executar ga init2 gds2
          (executar ga init1 gds1 initState).2).2.historico_custos := by
  obtain ⟨D1, hD1, hh1, hm1⟩ := runFrom_delta ga gds1 ga.geracoes 0
    (criar_populacao ga init1) initState
  obtain ⟨D2, hD2, hh2, hm2⟩ := runFrom_delta ga gds2 ga.geracoes 0
    (criar_populacao ga init2)
    (runFrom ga gds1 0 ga.geracoes (criar_populacao ga init1) initState).2
  have hst1h : (executar ga init1 gds1 initState).2.historico_custos = D1 := by
    show (runFrom ga gds1 0 ga.geracoes (criar_populacao ga init1)
      initState).2.historico_custos = D1
    rw [hh1]
    simp [initState]
  have hst1m : (executar ga init1 gds1 initState).2.melhor_custo
      = D1.foldl minOpt none := by
    show (runFrom ga gds1 0 ga.geracoes (criar_populacao ga init1)
      initState).2.melhor_custo = D1.foldl minOpt none
    rw [hm1]
    rfl
  have hr2h : (executar ga init2 gds2
      (executar ga init1 gds1 initState).2).2.historico_custos = D1 ++ D2 := by
    show (runFrom ga gds2 0 ga.geracoes (criar_populacao ga init2)
      (runFrom ga gds1 0 ga.geracoes (criar_populacao ga init1)
        initState).2).2.historico_custos = D1 ++ D2
    rw [hh2, ← hst1h]
    rfl
  have hr2m : (executar ga init2 gds2
      (executar ga init1 gds1 initState).2).1.2 = (D1 ++ D2).foldl minOpt none := by
    show (runFrom ga gds2 0 ga.geracoes (criar_populacao ga init2)
      (runFrom ga gds1 0 ga.geracoes (criar_populacao ga init1)
        initState).2).2.melhor_custo = (D1 ++ D2).foldl minOpt none
    rw [hm2, List.foldl_append, ← hst1m]
    rfl
  refine ⟨?_, ?_, ?_⟩
  · rw [hr2h]
    simp only [List.length_append, hD1, hD2]
    omega
  · rw [hr2h, hst1h, List.getD_append]
    omega
  · rw [hr2m, hr2h]
    rfl

/-- Witness for C10 at the concrete small configuration. -/
theorem C10_witness :
    (executar gaSmall initConst gdsConst
        (executar gaSmall initConst gdsConst initState).2).2.historico_custos.length
      = 2 * gaSmall.geracoes ∧
    (executar gaSmall initConst gdsConst
        (executar gaSmall initConst gdsConst initState).2).2.historico_custos.getD 0 0
      = (executar gaSmall initConst gdsConst initState).2.historico_custos.getD 0 0 ∧
    (executar gaSmall initConst gdsConst
        (executar gaSmall initConst gdsConst initState).2).1.2
      = listMinOpt (executar gaSmall initConst gdsConst
          (executar gaSmall initConst gdsConst initState).2).2.historico_custos :=
  C10_second_run gaSmall initConst initConst gdsConst gdsConst 0
    (by norm_num [gaSmall]) (by norm_num [gaSmall])

lemma readH_append (h : Heap) (t : List Vec4) (r : ℕ) (hr : r < h.length) :
    readH (h ++ t) r = readH h r :=
  List.getD_append h t vzero r hr

lemma crossoverH_eq (ga : GA) (r1 r2 : ℕ) (roll : ℚ) (mask : Fin 4 → Bool)
    (h : Heap) :
    crossoverH ga r1 r2 roll mask h
      = allocH h (crossover ga (readH h r1) (readH h r2) roll mask) := by
  unfold crossoverH crossover
  by_cases hc : roll < ga.taxa_crossover <;> simp [hc]

lemma extends_set (h g : Heap) (t : List Vec4) (r : ℕ) (u : Vec4)
    (ht : g = h ++ t) (hr : h.length ≤ r) :
    writeH g r u = h ++ t.set (r - h.length) u := by
  subst ht
  unfold writeH
  rw [List.set_append, if_neg (by omega)]

lemma exists_extends_append (h T : Heap) (w : Vec4) (L : ℕ)
    (hL : h.length ≤ L) :
    ∃ t, ((h ++ T) ++ [w] = h ++ t) ∧ h.length ≤ L :=
  ⟨T ++ [w], by rw [List.append_assoc], hL⟩

lemma offspringH_spec (ga : GA) (popRefs : List ℕ) (fit : List ℚ)
    (d : OffDraws) (h : Heap) :
    ∃ t : List Vec4,
      (offspringH ga popRefs fit d h).1 = h ++ t ∧
      h.length ≤ (offspringH ga popRefs fit d h).2 := by
  simp only [offspringH]
  obtain ⟨v1, hv1⟩ : ∃ v, selecao_torneioH popRefs fit d.t1 h
      = (h ++ [v], h.length) := ⟨_, rfl⟩
  rw [hv1]
  obtain ⟨v2, hv2⟩ : ∃ v, selecao_torneioH popRefs fit d.t2 (h ++ [v1])
      = (h ++ [v1] ++ [v], (h ++ [v1]).length) := ⟨_, rfl⟩
  rw [hv2]
  rw [crossoverH_eq]
  simp only [allocH]
  unfold mutacaoH
  by_cases hm : d.mutRoll < ga.taxa_mutacao
  · rw [if_pos hm]
    simp only [allocH]
    have hset := extends_set h (h ++ [v1] ++ [v2] ++
        [crossover ga (readH (h ++ [v1] ++ [v2]) h.length)
          (readH (h ++ [v1] ++ [v2]) (h ++ [v1]).length) d.crossRoll d.mask])
      ([v1] ++ [v2] ++
        [crossover ga (readH (h ++ [v1] ++ [v2]) h.length)
          (readH (h ++ [v1] ++ [v2]) (h ++ [v1]).length) d.crossRoll d.mask])
      (h ++ [v1] ++ [v2]).length
      (Function.update
        (readH (h ++ [v1] ++ [v2] ++
          [crossover ga (readH (h ++ [v1] ++ [v2]) h.length)
            (readH (h ++ [v1] ++ [v2]) (h ++ [v1]).length) d.crossRoll d.mask])
          (h ++ [v1] ++ [v2]).length) d.mutIdx
        (readH (h ++ [v1] ++ [v2] ++
          [crossover ga (readH (h ++ [v1] ++ [v2]) h.length)
            (readH (h ++ [v1] ++ [v2]) (h ++ [v1]).length) d.crossRoll d.mask])
          (h ++ [v1] ++ [v2]).length d.mutIdx + d.noise))
      (by simp [List.append_assoc])
      (by simp only [List.length_append, List.length_cons, List.length_nil]; omega)
    rw [hset]
    exact exists_extends_append h _ _ _ (by simp)
  · rw [if_neg hm]
    refine ⟨[v1] ++ [v2] ++
      [crossover ga (readH (h ++ [v1] ++ [v2]) h.length)
        (readH (h ++ [v1] ++ [v2]) (h ++ [v1]).length) d.crossRoll d.mask], ?_, ?_⟩
    · simp [List.append_assoc]
    · simp only [List.length_append, List.length_cons, List.length_nil]
      omega

/-- C8: the offspring pipeline of one while-loop iteration (tournament
    selection twice, crossover, then mutacao) never writes to an array of the
    current population. Selection and crossover only allocate copies or fresh
    arrays, and the single in-place write of mutacao hits the freshly
    allocated offspring, so every population cell reads unchanged afterwards
    and the returned reference is not a population cell. -/
theorem C8_operators_do_not_mutate_population (ga : GA) (popRefs : List ℕ)
    (fit : List ℚ) (d : OffDraws) (h : Heap) (r : ℕ)
    (hr : r ∈ popRefs) (hvalid : ∀ q ∈ popRefs, q < h.length) :
    readH (offspringH ga popRefs fit d h).1 r = readH h r ∧
    (offspringH ga popRefs fit d h).2 ∉ popRefs := by
  obtain ⟨t, ht, hlen⟩ := offspringH_spec ga popRefs fit d h
  constructor
  · rw [ht]
    exact readH_append h t r (hvalid r hr)
  · intro hmem
    have := hvalid _ hmem
    omega

/-- Witness for C8 on the concrete two-individual heap. -/
theorem C8_witness :
    readH (offspringH gaDefault [0, 1] (pop2.map fitness) d0 pop2).1 0
      = readH pop2 0 ∧
    (offspringH gaDefault [0, 1] (pop2.map fitness) d0 pop2).2 ∉ ([0, 1] : List ℕ) :=
  C8_operators_do_not_mutate_population gaDefault [0, 1] (pop2.map fitness) d0
    pop2 0 (by simp)
    (by intro q hq
        fin_cases hq <;> simp [pop2])
